import Mathlib

/-!
Verification of the iOS vsync waiter
(`shell/platform/darwin/ios/framework/Source/vsync_waiter_ios.h`).

The repository snapshot contains only the interface header: the Objective-C
implementation file (`vsync_waiter_ios.mm`, holding the bodies of
`-[VSyncClient await]`, `-[VSyncClient invalidate]`, the display-link signal
handler, `-[VSyncClient getRefreshRate]` and the `flutter::VsyncWaiterIOS`
member functions) is not under the snapshot.  Those behaviours are therefore
modelled from the specification (sections 3, 4.2, 4.3 and 7), faithful to the
spec wording, and the claims are settled against that model.

Timestamps and refresh rates are modelled with rationals, so that the
1/T refresh-rate arithmetic is exact.
-/

namespace VsyncIOS

/-- Frame timing pair handed to the engine callback.  Spec section 3:
FrameTiming is a pair of a frame-start timestamp and a frame-target
timestamp. -/
structure FrameTiming where
  frame_start : ℚ
  frame_target : ℚ
deriving DecidableEq, Repr

/-- One callback invocation posted to the target execution context.  The
`callback` and `taskRunner` fields are abstract identifiers recording which
engine callback was invoked and on which task runner the invocation was
posted. -/
structure Delivery where
  callback : ℕ
  taskRunner : ℕ
  timing : FrameTiming
deriving DecidableEq, Repr

/-- Modelled from the spec: the state of a `VSyncClient` object.  The
implementation file `vsync_waiter_ios.mm` is not in the snapshot, so the
fields follow spec section 3: a lifetime state (`valid` is the Active state,
`valid = false` the Invalidated state), an armed flag for the native
display-link binding, the `allowPauseAfterVsync` flag declared in the header,
the most recent refresh-rate estimate (sentinel 0 before any signal), and the
engine callback plus target task runner fixed by
`initWithTaskRunner:callback:`. -/
structure VSyncClient where
  valid : Bool
  armed : Bool
  allowPauseAfterVsync : Bool
  refreshRate : ℚ
  callback : ℕ
  taskRunner : ℕ
deriving DecidableEq, Repr

/-- Modelled from the spec: construction by
`-[VSyncClient initWithTaskRunner:callback:]` (body not in the snapshot).
A fresh client is Active, not yet armed, has `allowPauseAfterVsync`
defaulting to `YES` (header doc comment: Default value is YES), and no
refresh-rate estimate yet (sentinel 0, spec section 4.2). -/
def VSyncClient.initWithTaskRunner (taskRunner cb : ℕ) : VSyncClient :=
  { valid := true
    armed := false
    allowPauseAfterVsync := true
    refreshRate := 0
    callback := cb
    taskRunner := taskRunner }

/-- The externally observable events acting on a `VSyncClient`: the engine
calls `await` and `invalidate`, mutates the `allowPauseAfterVsync` property,
and the platform hardware fires a vsync signal carrying the signal timestamp
and the next expected signal timestamp. -/
inductive Event where
  | await : Event
  | invalidate : Event
  | setAllowPauseAfterVsync : Bool → Event
  | signal : ℚ → ℚ → Event
deriving DecidableEq, Repr

/-- Whether the event is a mutation of the `allowPauseAfterVsync` property. -/
def Event.isSetPause : Event → Bool
  | Event.setAllowPauseAfterVsync _ => true
  | _ => false

/-- Whether the event is a hardware vsync signal. -/
def Event.isSignal : Event → Bool
  | Event.signal _ _ => true
  | _ => false

/-- A hardware signal is well formed when its next expected timestamp is
strictly after its own timestamp; non-signal events are always well
formed. -/
def Event.wellFormed : Event → Bool
  | Event.signal ts next => decide (ts < next)
  | _ => true

/-- Modelled from the spec: one step of the `VSyncClient` behaviour; the
bodies of `-[VSyncClient await]`, `-[VSyncClient invalidate]`, the
`allowPauseAfterVsync` setter and the display-link signal handler are not in
the snapshot.  Following spec sections 4.2 and 7:
`await` arms the native timer binding if the client is Active and is a no-op
on an invalidated client; `invalidate` transitions to Invalidated and
releases (disarms) the timer binding; a hardware signal is delivered only
while the client is Active and the binding armed (a released or paused
binding produces no delivery) and, when delivered, produces one callback
carrying `FrameTiming(signal timestamp, next expected timestamp)`, updates
the refresh-rate estimate to the reciprocal of the interval, and then either
disarms (pause mode) or stays armed (continuous mode). -/
def VSyncClient.step (s : VSyncClient) : Event → VSyncClient × Option Delivery
  | Event.await => if s.valid then ({ s with armed := true }, none) else (s, none)
  | Event.invalidate => ({ s with valid := false, armed := false }, none)
  | Event.setAllowPauseAfterVsync b => ({ s with allowPauseAfterVsync := b }, none)
  | Event.signal ts next =>
      if s.valid && s.armed then
        ({ s with armed := !s.allowPauseAfterVsync, refreshRate := (next - ts)⁻¹ },
          some { callback := s.callback, taskRunner := s.taskRunner,
                 timing := { frame_start := ts, frame_target := next } })
      else (s, none)

/-- Run a sequence of events from a state, collecting the callback
deliveries in order. -/
def VSyncClient.run (s : VSyncClient) : List Event → VSyncClient × List Delivery
  | [] => (s, [])
  | e :: evs =>
      (((s.step e).1.run evs).1, (s.step e).2.toList ++ ((s.step e).1.run evs).2)

/-- `-[VSyncClient getRefreshRate]` (body not in the snapshot): modelled
from the spec, it returns the most recent refresh-rate estimate, the
sentinel 0 before the first signal (spec section 4.2). -/
def VSyncClient.getRefreshRate (s : VSyncClient) : ℚ := s.refreshRate

/-- Number of `await` events in a trace. -/
def countAwaits : List Event → ℕ
  | [] => 0
  | Event.await :: evs => countAwaits evs + 1
  | _ :: evs => countAwaits evs

/-- 1 when the client is armed, 0 otherwise; used for the pause-mode
counting invariant. -/
def armedBit (s : VSyncClient) : ℕ := if s.armed then 1 else 0

/-- `flutter::VsyncWaiterIOS`: owns one `VSyncClient` (field `client_` in
the header). -/
structure VsyncWaiterIOS where
  client_ : VSyncClient
deriving DecidableEq, Repr

/-- Modelled from the spec: the `VsyncWaiterIOS` constructor (body not in
the snapshot) creates the owned `VSyncClient` with the engine callback and
target task runner. -/
def VsyncWaiterIOS.create (taskRunner cb : ℕ) : VsyncWaiterIOS :=
  { client_ := VSyncClient.initWithTaskRunner taskRunner cb }

/-- Modelled from the spec: `flutter::VsyncWaiterIOS::AwaitVSync` (body not
in the snapshot) delegates to `-[VSyncClient await]`, arming the client for
one signal (spec section 4.3). -/
def VsyncWaiterIOS.AwaitVSync (w : VsyncWaiterIOS) : VsyncWaiterIOS :=
  { client_ := (w.client_.step Event.await).1 }

/-- Modelled from the spec: `flutter::VsyncWaiterIOS::GetRefreshRate` (body
not in the snapshot) delegates to `-[VSyncClient getRefreshRate]` (spec
section 4.3). -/
def VsyncWaiterIOS.GetRefreshRate (w : VsyncWaiterIOS) : ℚ :=
  w.client_.getRefreshRate

/-- Modelled from the spec: the `flutter::VsyncWaiterIOS` destructor (body
not in the snapshot) calls `-[VSyncClient invalidate]` on `client_` before
releasing it (spec section 4.3); the result is the state the released
client object is left in. -/
def VsyncWaiterIOS.destroy (w : VsyncWaiterIOS) : VSyncClient :=
  (w.client_.step Event.invalidate).1

theorem run_nil (s : VSyncClient) : s.run [] = (s, []) := rfl

theorem run_cons (s : VSyncClient) (e : Event) (evs : List Event) :
    s.run (e :: evs) =
      (((s.step e).1.run evs).1, (s.step e).2.toList ++ ((s.step e).1.run evs).2) := rfl

/-- An invalidated client stays invalidated and never produces a delivery,
whatever events follow. -/
theorem run_invalid (evs : List Event) : ∀ s : VSyncClient, s.valid = false →
    (s.run evs).2 = [] ∧ (s.run evs).1.valid = false := by
  induction evs with
  | nil => intro s h; exact ⟨rfl, h⟩
  | cons e evs ih =>
      intro s h
      have hstep : ((s.step e).1.valid = false) ∧ (s.step e).2 = none := by
        cases e with
        | await => simp [VSyncClient.step, h]
        | invalidate => simp [VSyncClient.step]
        | setAllowPauseAfterVsync b => simp [VSyncClient.step, h]
        | signal ts next => simp [VSyncClient.step, h]
      have := ih (s.step e).1 hstep.1
      rw [run_cons]
      simp [hstep.2, this.1, this.2]

/-- C2: once `invalidate` has run on the `SignalClient`, every subsequent
hardware signal (and any other event) is discarded without invoking the
engine callback: any number of following events delivers zero callbacks. -/
theorem invalidate_discards_all_signals (s : VSyncClient) (evs : List Event) :
    (((s.step Event.invalidate).1).run evs).2 = [] := by
  have h : (s.step Event.invalidate).1.valid = false := by
    simp [VSyncClient.step]
  exact (run_invalid evs _ h).1

/-- C3: the `VsyncWaiterIOS` destructor invalidates its `SignalClient`
before releasing it, so after destruction no hardware signal ever produces a
callback to the destroyed engine object. -/
theorem destructor_invalidates_client (w : VsyncWaiterIOS) (evs : List Event) :
    w.destroy.valid = false ∧ (w.destroy.run evs).2 = [] := by
  have h : w.destroy.valid = false := by
    simp [VsyncWaiterIOS.destroy, VSyncClient.step]
  exact ⟨h, (run_invalid evs _ h).1⟩

/-- C7: `invalidate` is idempotent: a second `invalidate` on an already
invalidated client produces exactly the same state and the same (absent)
delivery as the first call alone. -/
theorem invalidate_idempotent (s : VSyncClient) :
    ((s.step Event.invalidate).1).step Event.invalidate = s.step Event.invalidate := by
  cases s
  simp [VSyncClient.step]

/-- C8: `await` on an invalidated client is a no-op: it leaves the state
unchanged (in particular it does not re-arm the released timer binding) and
fires no callback. -/
theorem await_on_invalidated_noop (s : VSyncClient) (h : s.valid = false) :
    s.step Event.await = (s, none) := by
  simp [VSyncClient.step, h]

/-- Witness for C8 at a concrete invalidated client. -/
theorem await_on_invalidated_noop_witness :
    (((VSyncClient.initWithTaskRunner 0 0).step Event.invalidate).1).valid = false ∧
      (((VSyncClient.initWithTaskRunner 0 0).step Event.invalidate).1).step Event.await =
        ((((VSyncClient.initWithTaskRunner 0 0).step Event.invalidate).1), none) :=
  ⟨by decide, await_on_invalidated_noop _ (by decide)⟩

/-- A non-`setAllowPauseAfterVsync` event leaves the pause flag unchanged. -/
theorem step_preserves_pause (s : VSyncClient) (e : Event) (h : e.isSetPause = false) :
    ((s.step e).1).allowPauseAfterVsync = s.allowPauseAfterVsync := by
  cases e with
  | await => by_cases hv : s.valid <;> simp [VSyncClient.step, hv]
  | invalidate => simp [VSyncClient.step]
  | setAllowPauseAfterVsync b => simp [Event.isSetPause] at h
  | signal ts next =>
      by_cases hv : s.valid && s.armed <;> simp [VSyncClient.step, hv]

theorem countAwaits_cons (e : Event) (evs : List Event) :
    countAwaits (e :: evs) =
      (if e = Event.await then 1 else 0) + countAwaits evs := by
  cases e with
  | await => simp [countAwaits]; omega
  | invalidate => simp [countAwaits]
  | setAllowPauseAfterVsync b => simp [countAwaits]
  | signal ts next => simp [countAwaits]

theorem run_length_cons (s : VSyncClient) (e : Event) (evs : List Event) :
    ((s.run (e :: evs)).2).length =
      (s.step e).2.toList.length + (((s.step e).1.run evs).2).length := by
  rw [run_cons]; simp

/-- One pause-mode step: the delivery produced by the step plus the armed
bit afterwards is bounded by (1 for an `await`, else 0) plus the armed bit
before. -/
theorem step_pause_bound (s : VSyncClient) (e : Event)
    (hp : s.allowPauseAfterVsync = true) (he : e.isSetPause = false) :
    (s.step e).2.toList.length + armedBit (s.step e).1 ≤
      (if e = Event.await then 1 else 0) + armedBit s := by
  cases e with
  | await =>
      by_cases hv : s.valid = true
      · simp [VSyncClient.step, hv, armedBit]
      · simp only [Bool.not_eq_true] at hv
        simp [VSyncClient.step, hv, armedBit]
  | invalidate => simp [VSyncClient.step, armedBit]
  | setAllowPauseAfterVsync b => simp [Event.isSetPause] at he
  | signal ts next =>
      by_cases hv : (s.valid && s.armed) = true
      · have harm : s.armed = true := (Bool.and_eq_true_iff.mp hv).2
        have hvalid : s.valid = true := (Bool.and_eq_true_iff.mp hv).1
        simp [VSyncClient.step, hvalid, harm, hp, armedBit]
      · simp only [Bool.not_eq_true] at hv
        simp [VSyncClient.step, hv, armedBit]

/-- Counting invariant for pause mode: along any trace that never switches
the pause flag off, the deliveries produced plus the final armed bit are
bounded by the `await` count plus the initial armed bit. -/
theorem run_pause_bound (evs : List Event) : ∀ s : VSyncClient,
    s.allowPauseAfterVsync = true → (∀ e ∈ evs, e.isSetPause = false) →
    ((s.run evs).2).length + armedBit (s.run evs).1 ≤ countAwaits evs + armedBit s := by
  induction evs with
  | nil => intro s _ _; simp [run_nil, countAwaits]
  | cons e evs ih =>
      intro s hp hall
      have he : e.isSetPause = false := hall e (List.mem_cons_self e evs)
      have hall' : ∀ x ∈ evs, x.isSetPause = false := fun x hx =>
        hall x (List.mem_cons_of_mem e hx)
      have hp' : ((s.step e).1).allowPauseAfterVsync = true := by
        rw [step_preserves_pause s e he]; exact hp
      have hIH := ih (s.step e).1 hp' hall'
      have hstep := step_pause_bound s e hp he
      have hlen := run_length_cons s e evs
      have hfin : (s.run (e :: evs)).1 = ((s.step e).1.run evs).1 := by
        rw [run_cons]
      rw [countAwaits_cons, hlen, hfin]
      omega

/-- C1: in pause mode, over any interleaving of `await` calls, hardware
signals and invalidations starting from a fresh client, the number of
callback invocations delivered never exceeds the number of `await` calls:
each `await` causes at most one callback, even if the hardware fires many
signals before the callback is consumed. -/
theorem pause_mode_at_most_one_callback_per_await (tr cb : ℕ) (evs : List Event)
    (hall : ∀ e ∈ evs, e.isSetPause = false) :
    (((VSyncClient.initWithTaskRunner tr cb).run evs).2).length ≤ countAwaits evs := by
  have h := run_pause_bound evs (VSyncClient.initWithTaskRunner tr cb) rfl hall
  have hb : armedBit (VSyncClient.initWithTaskRunner tr cb) = 0 := rfl
  rw [hb] at h
  omega

/-- Witness for C1: one `await` then three hardware signals deliver at most
one callback. -/
theorem pause_mode_at_most_one_callback_per_await_witness :
    (((VSyncClient.initWithTaskRunner 0 0).run
        [Event.await, Event.signal 0 1, Event.signal 1 2, Event.signal 2 3]).2).length ≤
      countAwaits [Event.await, Event.signal 0 1, Event.signal 1 2, Event.signal 2 3] :=
  pause_mode_at_most_one_callback_per_await 0 0 _ (by decide)

/-- C4: in continuous mode (pause flag off), once the client is armed,
every hardware signal delivers exactly one callback with no further `await`
calls, and after each signal the client is still armed (it re-arms instead
of disarming) and still Active, so the behaviour continues until an
`invalidate`. -/
theorem continuous_mode_one_callback_per_signal (evs : List Event) :
    ∀ s : VSyncClient, s.valid = true → s.armed = true →
    s.allowPauseAfterVsync = false → (∀ e ∈ evs, e.isSignal = true) →
    ((s.run evs).2).length = evs.length ∧ (s.run evs).1.armed = true ∧
      (s.run evs).1.valid = true ∧ (s.run evs).1.allowPauseAfterVsync = false := by
  induction evs with
  | nil => intro s hv ha hp _; exact ⟨rfl, ha, hv, hp⟩
  | cons e evs ih =>
      intro s hv ha hp hall
      have he : e.isSignal = true := hall e (List.mem_cons_self e evs)
      have hall' : ∀ x ∈ evs, x.isSignal = true := fun x hx =>
        hall x (List.mem_cons_of_mem e hx)
      cases e with
      | await => simp [Event.isSignal] at he
      | invalidate => simp [Event.isSignal] at he
      | setAllowPauseAfterVsync b => simp [Event.isSignal] at he
      | signal ts next =>
          have hstep : s.step (Event.signal ts next) =
              ({ s with armed := true, refreshRate := (next - ts)⁻¹ },
                some { callback := s.callback, taskRunner := s.taskRunner,
                       timing := { frame_start := ts, frame_target := next } }) := by
            simp [VSyncClient.step, hv, ha, hp]
          have hIH := ih { s with armed := true, refreshRate := (next - ts)⁻¹ }
            hv rfl hp hall'
          rw [run_cons, hstep]
          simpa using ⟨hIH.1, hIH.2⟩

/-- Witness for C4: three hardware signals on an armed continuous-mode
client deliver exactly three callbacks, and the client stays armed. -/
theorem continuous_mode_one_callback_per_signal_witness :
    ((((((VSyncClient.initWithTaskRunner 0 0).step
            (Event.setAllowPauseAfterVsync false)).1).step Event.await).1.run
        [Event.signal 0 1, Event.signal 1 2, Event.signal 2 3]).2).length =
      [Event.signal 0 1, Event.signal 1 2, Event.signal 2 3].length ∧
    ((((((VSyncClient.initWithTaskRunner 0 0).step
            (Event.setAllowPauseAfterVsync false)).1).step Event.await).1.run
        [Event.signal 0 1, Event.signal 1 2, Event.signal 2 3]).1).armed = true ∧
    ((((((VSyncClient.initWithTaskRunner 0 0).step
            (Event.setAllowPauseAfterVsync false)).1).step Event.await).1.run
        [Event.signal 0 1, Event.signal 1 2, Event.signal 2 3]).1).valid = true ∧
    ((((((VSyncClient.initWithTaskRunner 0 0).step
            (Event.setAllowPauseAfterVsync false)).1).step Event.await).1.run
        [Event.signal 0 1, Event.signal 1 2,
          Event.signal 2 3]).1).allowPauseAfterVsync = false :=
  continuous_mode_one_callback_per_signal _ _ (by decide) (by decide) (by decide)
    (by decide)

/-- Non-signal events leave the refresh-rate estimate unchanged. -/
theorem step_preserves_refreshRate (s : VSyncClient) (e : Event)
    (h : e.isSignal = false) : ((s.step e).1).refreshRate = s.refreshRate := by
  cases e with
  | await => by_cases hv : s.valid = true <;> simp [VSyncClient.step, hv]
  | invalidate => simp [VSyncClient.step]
  | setAllowPauseAfterVsync b => simp [VSyncClient.step]
  | signal ts next => simp [Event.isSignal] at h

/-- A trace with no hardware signal leaves the refresh-rate estimate
unchanged. -/
theorem run_preserves_refreshRate (evs : List Event) : ∀ s : VSyncClient,
    (∀ e ∈ evs, e.isSignal = false) →
    ((s.run evs).1).refreshRate = s.refreshRate := by
  induction evs with
  | nil => intro s _; rfl
  | cons e evs ih =>
      intro s hall
      have he : e.isSignal = false := hall e (List.mem_cons_self e evs)
      have hall' : ∀ x ∈ evs, x.isSignal = false := fun x hx =>
        hall x (List.mem_cons_of_mem e hx)
      rw [run_cons]
      simpa [ih (s.step e).1 hall'] using step_preserves_refreshRate s e he

/-- C5: before any hardware signal has fired, `getRefreshRate` returns the
sentinel 0 (along any signal-free trace from a fresh client); after a
delivered signal whose next-expected timestamp minus signal timestamp is T,
`getRefreshRate` returns exactly 1/T (the rational model makes the
floating-point approximation exact). -/
theorem getRefreshRate_sentinel_then_estimate (tr cb : ℕ) (evs : List Event)
    (s : VSyncClient) (ts next : ℚ)
    (hns : ∀ e ∈ evs, e.isSignal = false)
    (hv : s.valid = true) (ha : s.armed = true) :
    (((VSyncClient.initWithTaskRunner tr cb).run evs).1).getRefreshRate = 0 ∧
      (((s.step (Event.signal ts next)).1).getRefreshRate = 1 / (next - ts)) := by
  constructor
  · have h := run_preserves_refreshRate evs (VSyncClient.initWithTaskRunner tr cb) hns
    simpa [VSyncClient.getRefreshRate, VSyncClient.initWithTaskRunner] using h
  · simp [VSyncClient.step, VSyncClient.getRefreshRate, hv, ha, one_div]

/-- Witness for C5: a fresh client queried after one `await` (no signal yet)
reports 0; an armed client that receives a signal at t = 0 with next
expected at t = 1/60 reports a refresh rate of 60. -/
theorem getRefreshRate_sentinel_then_estimate_witness :
    ((((VSyncClient.initWithTaskRunner 0 0).run [Event.await]).1).getRefreshRate = 0 ∧
      (((((VSyncClient.initWithTaskRunner 0 0).step Event.await).1).step
          (Event.signal 0 (1 / 60))).1).getRefreshRate = 1 / (1 / 60 - 0)) :=
  getRefreshRate_sentinel_then_estimate 0 0 [Event.await] _ 0 (1 / 60)
    (by decide) (by decide) (by decide)

/-- C6: `allowPauseAfterVsync` defaults to on: a freshly constructed client
with the flag untouched has the flag set, and after one `await` and one
delivered hardware signal it has fired exactly one callback and disarmed
itself. -/
theorem default_pause_after_vsync (tr cb : ℕ) (ts next : ℚ) :
    (VSyncClient.initWithTaskRunner tr cb).allowPauseAfterVsync = true ∧
      ((((VSyncClient.initWithTaskRunner tr cb).step Event.await).1).step
          (Event.signal ts next)).2.isSome = true ∧
      ((((VSyncClient.initWithTaskRunner tr cb).step Event.await).1).step
          (Event.signal ts next)).1.armed = false := by
  refine ⟨rfl, ?_, ?_⟩ <;>
    simp [VSyncClient.initWithTaskRunner, VSyncClient.step]

/-- A single step on a well-formed event only produces deliveries whose
frame target is strictly after the frame start. -/
theorem step_timing_sound (s : VSyncClient) (e : Event) (hw : e.wellFormed = true) :
    ∀ d ∈ (s.step e).2.toList, d.timing.frame_start < d.timing.frame_target := by
  cases e with
  | await =>
      intro d hd
      by_cases hv : s.valid = true <;> simp [VSyncClient.step, hv] at hd
  | invalidate => intro d hd; simp [VSyncClient.step] at hd
  | setAllowPauseAfterVsync b => intro d hd; simp [VSyncClient.step] at hd
  | signal ts next =>
      intro d hd
      have hlt : ts < next := by simpa [Event.wellFormed] using hw
      by_cases hv : (s.valid && s.armed) = true
      · simp only [VSyncClient.step, hv, if_true, Option.toList_some,
          List.mem_singleton] at hd
        subst hd
        exact hlt
      · simp only [Bool.not_eq_true] at hv
        simp [VSyncClient.step, hv] at hd

/-- C9: every `FrameTiming` handed to the engine callback satisfies
frame_target > frame_start, for every delivery produced from any trace of
well-formed hardware signals (signals whose next expected timestamp is after
their own timestamp). -/
theorem frame_timing_invariant (evs : List Event) : ∀ s : VSyncClient,
    (∀ e ∈ evs, e.wellFormed = true) →
    ∀ d ∈ (s.run evs).2, d.timing.frame_start < d.timing.frame_target := by
  induction evs with
  | nil => intro s _ d hd; simp [run_nil] at hd
  | cons e evs ih =>
      intro s hall d hd
      have he : e.wellFormed = true := hall e (List.mem_cons_self e evs)
      have hall' : ∀ x ∈ evs, x.wellFormed = true := fun x hx =>
        hall x (List.mem_cons_of_mem e hx)
      rw [run_cons] at hd
      rcases List.mem_append.mp hd with h1 | h2
      · exact step_timing_sound s e he d h1
      · exact ih (s.step e).1 hall' d h2

/-- Witness for C9: the single delivery of the scenario await-then-signal
at (0, 1/60) carries a frame start strictly before its frame target. -/
theorem frame_timing_invariant_witness :
    ({ callback := 0, taskRunner := 0,
       timing := { frame_start := 0, frame_target := 1 / 60 } } :
        Delivery).timing.frame_start <
      ({ callback := 0, taskRunner := 0,
         timing := { frame_start := 0, frame_target := 1 / 60 } } :
          Delivery).timing.frame_target :=
  frame_timing_invariant [Event.await, Event.signal 0 (1 / 60)]
    (VSyncClient.initWithTaskRunner 0 0)
    (by intro e he; fin_cases he <;> simp [Event.wellFormed])
    { callback := 0, taskRunner := 0,
      timing := { frame_start := 0, frame_target := 1 / 60 } }
    (List.Mem.head _)

/-- Any step leaves the construction-time callback and task runner
untouched, and any delivery it produces carries exactly them. -/
theorem step_fixed_target (s : VSyncClient) (e : Event) :
    ((s.step e).1).callback = s.callback ∧
      ((s.step e).1).taskRunner = s.taskRunner ∧
      ∀ d ∈ (s.step e).2.toList, d.callback = s.callback ∧
        d.taskRunner = s.taskRunner := by
  cases e with
  | await =>
      by_cases hv : s.valid = true <;> simp [VSyncClient.step, hv]
  | invalidate => simp [VSyncClient.step]
  | setAllowPauseAfterVsync b => simp [VSyncClient.step]
  | signal ts next =>
      by_cases hv : (s.valid && s.armed) = true
      · simp [VSyncClient.step, hv]
      · simp only [Bool.not_eq_true] at hv
        simp [VSyncClient.step, hv]

/-- The run-level version of `step_fixed_target`. -/
theorem run_fixed_target (evs : List Event) : ∀ s : VSyncClient,
    ((s.run evs).1).callback = s.callback ∧
      ((s.run evs).1).taskRunner = s.taskRunner ∧
      ∀ d ∈ (s.run evs).2, d.callback = s.callback ∧
        d.taskRunner = s.taskRunner := by
  induction evs with
  | nil =>
      intro s
      refine ⟨rfl, rfl, ?_⟩
      intro d hd
      simp [run_nil] at hd
  | cons e evs ih =>
      intro s
      have hstep := step_fixed_target s e
      have hIH := ih (s.step e).1
      rw [run_cons]
      refine ⟨by rw [hIH.1, hstep.1], by rw [hIH.2.1, hstep.2.1], ?_⟩
      intro d hd
      rcases List.mem_append.mp hd with h1 | h2
      · exact hstep.2.2 d h1
      · have := hIH.2.2 d h2
        exact ⟨by rw [this.1, hstep.1], by rw [this.2, hstep.2.1]⟩

/-- C10: the engine callback and the target task runner of a `VSyncClient`
are fixed at construction: no event of the interface can change them, so
along any trace from `initWithTaskRunner` every delivered `FrameTiming` goes
to the construction-time callback on the construction-time task runner, and
the final state still holds both. -/
theorem callback_and_runner_fixed_at_construction (tr cb : ℕ) (evs : List Event) :
    (((VSyncClient.initWithTaskRunner tr cb).run evs).1).callback = cb ∧
      (((VSyncClient.initWithTaskRunner tr cb).run evs).1).taskRunner = tr ∧
      ∀ d ∈ ((VSyncClient.initWithTaskRunner tr cb).run evs).2,
        d.callback = cb ∧ d.taskRunner = tr := by
  have h := run_fixed_target evs (VSyncClient.initWithTaskRunner tr cb)
  exact h

end VsyncIOS
